import Mathlib

/-!
Verification development for the code-aware chunking engine of this
repository (files smart-chunker.js and code-parser.js).

Modelling conventions.  JavaScript strings are embedded as `List Char`
(abbreviated `Str`); JavaScript numbers used as indices/offsets are
embedded as `Int` (so out-of-range and negative intermediate values are
representable exactly as in the source), sizes and counters that are
always non-negative as `Nat`.  The two source loops that the engine runs
(`splitWithOverlap`, `simpleChunk`) are embedded with an explicit fuel
parameter; exhausting fuel is reported separately from a normal exit, so
non-termination of the source loop is expressible as: no fuel suffices
for a normal exit.  `lines.slice`, `content.substring` and negative index
access are embedded with their exact JavaScript clamping semantics.
The one idealisation: `Math.floor(maxChunkSize / (len / nLines))` over
IEEE doubles is embedded as the exact rational floor
`maxChunkSize * nLines / len` (Nat division); at every concrete input
used below the two agree.
-/

abbrev Str := List Char

/-- Opening brace character, written via its code point. -/
def lbrace : Char := Char.ofNat 123

/-- Closing brace character, written via its code point. -/
def rbrace : Char := Char.ofNat 125

/-- JavaScript whitespace (the ASCII part), as used by `String.prototype.trim`. -/
def isWsJs (c : Char) : Bool :=
  c == ' ' || c == '\t' || c == '\n' || c == '\r' || c == '\x0b' || c == '\x0c'

/-- JavaScript `String.prototype.trim` (strip whitespace from both ends). -/
def trimStr (s : Str) : Str :=
  ((s.dropWhile (fun c => isWsJs c)).reverse.dropWhile (fun c => isWsJs c)).reverse

/-- JavaScript `String.prototype.toLowerCase` restricted to ASCII letters. -/
def toLowerStr (s : Str) : Str := s.map Char.toLower

/-- JavaScript `String.prototype.split(sep)` for a one-character separator.
`''.split(sep)` is `['']`, matching JavaScript. -/
def splitOnCh (sep : Char) : Str → List Str
  | [] => [[]]
  | c :: rest =>
    if c = sep then [] :: splitOnCh sep rest
    else
      match splitOnCh sep rest with
      | [] => [[c]]
      | h :: t => (c :: h) :: t

/-- `Array.prototype.join('\n')` over a list of lines. -/
def joinNl (lines : List Str) : Str := List.intercalate ['\n'] lines

/-- JavaScript `Array.prototype.slice(b, e)`: negative indices count from the
end, then both are clamped to `[0, length]`; an empty range yields `[]`. -/
def sliceJs (l : List Str) (b e : Int) : List Str :=
  let len : Int := l.length
  let b' := if b < 0 then max (len + b) 0 else min b len
  let e' := if e < 0 then max (len + e) 0 else min e len
  if b' < e' then (l.drop b'.toNat).take (e' - b').toNat else []

/-- JavaScript `String.prototype.substring(b, e)`: both arguments are clamped
to `[0, length]` and swapped when out of order. -/
def substringJs (s : Str) (b e : Int) : Str :=
  let len : Int := s.length
  let b' := min (max b 0) len
  let e' := min (max e 0) len
  let lo := min b' e'
  let hi := max b' e'
  (s.drop lo.toNat).take (hi - lo).toNat

/-- JavaScript array indexing `lines[i]`: `none` models `undefined`
(negative or past-the-end index). -/
def getLine (lines : List Str) (i : Int) : Option Str :=
  if i < 0 then none else lines[i.toNat]?

/-- Digits of a JavaScript number used in a template literal (only ever
applied to non-negative part counters in the source). -/
def intToStrJs (i : Int) : Str :=
  if i < 0 then '-' :: Nat.toDigits 10 (-i).toNat else Nat.toDigits 10 i.toNat

/-- The chunk object shape produced by code-parser.js and smart-chunker.js.
Fields that a given source code path leaves `undefined` are modelled by the
default values below (`none` / `false`). -/
structure RawChunk where
  type : Str
  name : Str
  startLine : Int
  endLine : Int
  startChar : Int
  endChar : Int
  content : Str
  signature : Option Str := none
  docstring : Option Str := none
  decorators : Option (List Str) := none
  isExported : Bool := false
  isAsync : Bool := false
  isGenerator : Bool := false
  isPartial : Bool := false
  partNumber : Option Int := none
  totalParts : Option Int := none
  parentChunk : Option Str := none
deriving Repr, DecidableEq

/-- Result of running the `splitWithOverlap` loop with fuel: `completed` is a
normal exit of the source loop (chunk list returned), `fuelOut` means the
fuel bound was reached with the loop still running (the chunks pushed so far
are kept for inspection), `jsError` models the TypeError the source would
throw on a negative line index inside `findOptimalSplitPoint`. -/
inductive SplitResult where
  | completed (chunks : List RawChunk)
  | fuelOut (chunks : List RawChunk)
  | jsError (chunks : List RawChunk)
deriving Repr, DecidableEq

/-- The chunks carried by a `SplitResult`. -/
def SplitResult.chunks : SplitResult → List RawChunk
  | .completed l => l
  | .fuelOut l => l
  | .jsError l => l

/-- Whether the source loop exited normally. -/
def SplitResult.isCompleted : SplitResult → Bool
  | .completed _ => true
  | _ => false

/-- smart-chunker.js `scoreSplitPoint(line, language)` (lines 162-196). -/
def scoreSplitPoint (line : Str) (language : Str) : Nat :=
  let trimmed := trimStr line
  if trimmed.isEmpty then 10
  else if (language == ("javascript".toList) || language == ("typescript".toList)) &&
      (['/', '/'].isPrefixOf trimmed || ['/', '*'].isPrefixOf trimmed ||
        ['*'].isPrefixOf trimmed) then 8
  else if language == ("python".toList) && ['#'].isPrefixOf trimmed then 8
  else if trimmed == [rbrace] || trimmed == [rbrace, ';'] || trimmed == [']', ')'] ||
      trimmed == [']', ';'] then 7
  else if ("return ".toList).isPrefixOf trimmed then 6
  else if trimmed == ("break;".toList) || trimmed == ("continue;".toList) then 5
  else 1

/-- The `for (let i = searchStart; i < searchEnd; i++)` scan inside
`findOptimalSplitPoint`: `n` remaining iterations, `i` the current index,
then the running best score (starts at `-1`) and best line.  A line read at
a negative index is `undefined` in the source and `undefined.trim()` throws:
modelled as `.error`. -/
def findBestLine (lines : List Str) (language : Str) :
    Nat → Int → Int → Int → Except Unit (Int × Int)
  | 0, _, bestScore, bestLine => .ok (bestScore, bestLine)
  | n + 1, i, bestScore, bestLine =>
    match getLine lines i with
    | none => .error ()
    | some line =>
      if bestScore < (scoreSplitPoint line language : Int) then
        findBestLine lines language n (i + 1) (scoreSplitPoint line language : Int) i
      else
        findBestLine lines language n (i + 1) bestScore bestLine

/-- smart-chunker.js `findOptimalSplitPoint(lines, startLine, idealEndLine,
language)` (lines 137-154), windowSize = 10. -/
def findOptimalSplitPoint (lines : List Str) (startLine idealEndLine : Int)
    (language : Str) : Except Unit Int :=
  match findBestLine lines language
      ((min (lines.length : Int) (idealEndLine + 10) -
        max startLine (idealEndLine - 10)).toNat)
      (max startLine (idealEndLine - 10)) (-1) idealEndLine with
  | .error _ => .error ()
  | .ok (_, bestLine) => .ok bestLine

/-- The chunk object pushed by one iteration of the `splitWithOverlap` loop
(smart-chunker.js lines 91-113), for the given `currentLine`, `splitPoint`
and `partNumber`.  Note `startChar`/`endChar` are computed exactly as in the
source, via `lines.slice(0, k).join('\n').length`. -/
def splitChunkPiece (chunk : RawChunk) (lines : List Str) (preserveSignatures : Bool)
    (currentLine splitPoint partNumber : Int) : RawChunk :=
  { chunk with
    content :=
      joinNl
        (if preserveSignatures && !(chunk.signature.getD []).isEmpty && partNumber > 0 then
          ((chunk.signature.getD []) ++ [' ', lbrace]) :: sliceJs lines currentLine splitPoint
        else sliceJs lines currentLine splitPoint),
    startLine := chunk.startLine + currentLine,
    endLine := chunk.startLine + splitPoint - 1,
    startChar := chunk.startChar + ((joinNl (sliceJs lines 0 currentLine)).length : Int),
    endChar := chunk.startChar + ((joinNl (sliceJs lines 0 splitPoint)).length : Int),
    isPartial := true,
    partNumber := some partNumber,
    totalParts := some 0,
    parentChunk := some chunk.name,
    docstring := if partNumber = 0 then chunk.docstring else none }

/-- The `while (currentLine < lines.length)` loop of `splitWithOverlap`
(smart-chunker.js lines 84-121), with fuel.  The two `.completed` exits are
the `while` condition turning false and the `break` after the overlap test. -/
def splitLoop (chunk : RawChunk) (lines : List Str) (linesPerChunk overlapLines : Int)
    (preserveSignatures : Bool) (language : Str) :
    Nat → Int → Int → List RawChunk → SplitResult
  | 0, _, _, acc => .fuelOut acc
  | fuel + 1, currentLine, partNumber, acc =>
    if currentLine < (lines.length : Int) then
      match findOptimalSplitPoint lines currentLine
          (min (currentLine + linesPerChunk) (lines.length : Int)) language with
      | .error _ => .jsError acc
      | .ok splitPoint =>
        if splitPoint - overlapLines ≥ (lines.length : Int) - overlapLines then
          .completed (acc ++
            [splitChunkPiece chunk lines preserveSignatures currentLine splitPoint partNumber])
        else
          splitLoop chunk lines linesPerChunk overlapLines preserveSignatures language fuel
            (splitPoint - overlapLines) (partNumber + 1)
            (acc ++
              [splitChunkPiece chunk lines preserveSignatures currentLine splitPoint partNumber])
    else .completed acc

/-- smart-chunker.js `splitWithOverlap(chunk, options)` (lines 71-127).
`linesPerChunk` and `overlapLines` are the exact floors of
`maxChunkSize / avgLineLength` and `overlap / avgLineLength` where
`avgLineLength = content.length / lines.length`.  On a normal loop exit the
source backfills `totalParts = chunks.length` on every sibling. -/
def splitWithOverlap (fuel : Nat) (chunk : RawChunk) (maxChunkSize overlap : Nat)
    (preserveSignatures : Bool) (language : Str) : SplitResult :=
  match splitLoop chunk (splitOnCh '\n' chunk.content)
      ((maxChunkSize * (splitOnCh '\n' chunk.content).length / chunk.content.length : Nat) : Int)
      ((overlap * (splitOnCh '\n' chunk.content).length / chunk.content.length : Nat) : Int)
      preserveSignatures language fuel 0 0 [] with
  | .completed chunks => .completed (chunks.map fun c => { c with totalParts := some chunks.length })
  | r => r

/-! ### Basic facts about the splitter -/

/-- `String.prototype.split` never returns an empty array. -/
lemma splitOnCh_ne_nil (sep : Char) (s : Str) : splitOnCh sep s ≠ [] := by
  induction s with
  | nil => simp [splitOnCh]
  | cons c rest ih =>
    simp only [splitOnCh]
    split
    · simp
    · cases h : splitOnCh sep rest with
      | nil => exact absurd h ih
      | cons a t => simp

/-- Every line scores at least 1 in `scoreSplitPoint`. -/
lemma scoreSplitPoint_pos (line language : Str) : 1 ≤ scoreSplitPoint line language := by
  simp only [scoreSplitPoint]
  split_ifs <;> omega

/-- The scan of `findOptimalSplitPoint` only ever moves the best line to an
index it visited: an `ok` result is the initial best line or lies in
`[i, i + n)`. -/
lemma findBestLine_ok (lines : List Str) (language : Str) :
    ∀ (n : Nat) (i bestScore bestLine s l : Int),
      findBestLine lines language n i bestScore bestLine = .ok (s, l) →
      l = bestLine ∨ (i ≤ l ∧ l < i + n) := by
  intro n
  induction n with
  | zero =>
    intro i bestScore bestLine s l h
    simp only [findBestLine, Except.ok.injEq, Prod.mk.injEq] at h
    exact Or.inl h.2.symm
  | succ m ih =>
    intro i bestScore bestLine s l h
    simp only [findBestLine] at h
    split at h
    · exact absurd h (by simp)
    · split at h
      · rcases ih (i + 1) _ i s l h with h1 | h2
        · right; omega
        · right; omega
      · rcases ih (i + 1) bestScore bestLine s l h with h1 | h2
        · exact Or.inl h1
        · right; omega

/-- Under the preconditions that hold at every call site inside the split
loop, a successful `findOptimalSplitPoint` always returns a line index
strictly below `lines.length`: the scan range `[searchStart, searchEnd)` is
non-empty, its first successful step already replaces the initial best line
(every score beats the initial `-1`), and every scanned index is below
`searchEnd ≤ lines.length`. -/
lemma findOptimalSplitPoint_lt (lines : List Str) (language : Str)
    (cur ide sp : Int) (hcur : cur < (lines.length : Int))
    (hide : ide ≤ (lines.length : Int)) (hci : cur ≤ ide)
    (h : findOptimalSplitPoint lines cur ide language = .ok sp) :
    sp < (lines.length : Int) := by
  unfold findOptimalSplitPoint at h
  set ss := max cur (ide - 10) with hss
  set se := min (lines.length : Int) (ide + 10) with hse
  have hwin : ss < se := by omega
  have hseL : se ≤ (lines.length : Int) := by omega
  obtain ⟨m, hm⟩ : ∃ m, (se - ss).toNat = m + 1 := ⟨(se - ss).toNat - 1, by omega⟩
  rw [hm] at h
  split at h
  · exact absurd h (by simp)
  · rename_i a bl heq
    have hbl : bl = sp := by simpa using h
    simp only [findBestLine] at heq
    split at heq
    · exact absurd heq (by simp)
    · rename_i line hgl
      split at heq
      · rcases findBestLine_ok lines language m (ss + 1) _ ss a bl heq with h1 | h2
        · omega
        · omega
      · rename_i hnlt
        have hn := Int.natCast_nonneg (scoreSplitPoint line language)
        omega

/-- The split loop can never exit normally.  Both exits require a split point
`≥ lines.length` (the `while` guard needs `currentLine ≥ lines.length` with
`currentLine = splitPoint - overlapLines ≤ splitPoint`, and the `break` test
`splitPoint - overlapLines ≥ lines.length - overlapLines` is equivalent to
`splitPoint ≥ lines.length`), but `findOptimalSplitPoint` always returns a
line index `< lines.length`. -/
lemma splitLoop_never_completes (chunk : RawChunk) (lines : List Str)
    (linesPerChunk overlapLines : Int) (preserveSignatures : Bool) (language : Str)
    (hlpc : 0 ≤ linesPerChunk) (hovl : 0 ≤ overlapLines) :
    ∀ (fuel : Nat) (cur part : Int) (acc : List RawChunk), cur < (lines.length : Int) →
      (splitLoop chunk lines linesPerChunk overlapLines preserveSignatures language
        fuel cur part acc).isCompleted = false := by
  intro fuel
  induction fuel with
  | zero => intro cur part acc hcur; rfl
  | succ m ih =>
    intro cur part acc hcur
    simp only [splitLoop]
    rw [if_pos hcur]
    cases hfo : findOptimalSplitPoint lines cur
        (min (cur + linesPerChunk) (lines.length : Int)) language with
    | error e => rfl
    | ok sp =>
      have hsp : sp < (lines.length : Int) :=
        findOptimalSplitPoint_lt lines language cur _ sp hcur (by omega) (by omega) hfo
      dsimp only
      have hne : ¬ (sp - overlapLines ≥ (lines.length : Int) - overlapLines) := by omega
      rw [if_neg hne]
      exact ih (sp - overlapLines) (part + 1) _ (by omega)

/-- Any property that holds of every pushed piece and of the starting
accumulator holds of every chunk the split loop ever emits (under any exit,
including fuel exhaustion and the error path). -/
lemma splitLoop_chunks_forall (chunk : RawChunk) (lines : List Str)
    (linesPerChunk overlapLines : Int) (preserveSignatures : Bool) (language : Str)
    (P : RawChunk → Prop)
    (hpush : ∀ cur sp part,
      P (splitChunkPiece chunk lines preserveSignatures cur sp part)) :
    ∀ (fuel : Nat) (cur part : Int) (acc : List RawChunk), (∀ c ∈ acc, P c) →
      ∀ c ∈ (splitLoop chunk lines linesPerChunk overlapLines preserveSignatures language
        fuel cur part acc).chunks, P c := by
  intro fuel
  induction fuel with
  | zero => intro cur part acc hacc; exact hacc
  | succ m ih =>
    intro cur part acc hacc
    simp only [splitLoop]
    by_cases hcur : cur < (lines.length : Int)
    · rw [if_pos hcur]
      cases hfo : findOptimalSplitPoint lines cur
          (min (cur + linesPerChunk) (lines.length : Int)) language with
      | error e => exact hacc
      | ok sp =>
        have happ : ∀ c ∈ acc ++
            [splitChunkPiece chunk lines preserveSignatures cur sp part], P c := by
          intro c hc
          rcases List.mem_append.mp hc with h | h
          · exact hacc c h
          · rw [List.mem_singleton.mp h]; exact hpush cur sp part
        dsimp only
        by_cases hbr : sp - overlapLines ≥ (lines.length : Int) - overlapLines
        · rw [if_pos hbr]; exact happ
        · rw [if_neg hbr]
          exact ih (sp - overlapLines) (part + 1) _ happ
    · rw [if_neg hcur]; exact hacc

/-- `splitWithOverlap` can never exit its loop normally, whatever the chunk,
the options and the fuel. -/
lemma splitWithOverlap_not_completed (fuel : Nat) (chunk : RawChunk)
    (maxChunkSize overlap : Nat) (preserveSignatures : Bool) (language : Str) :
    (splitWithOverlap fuel chunk maxChunkSize overlap preserveSignatures
      language).isCompleted = false := by
  unfold splitWithOverlap
  have hlen : 0 < (splitOnCh '\n' chunk.content).length :=
    List.length_pos.mpr (splitOnCh_ne_nil '\n' chunk.content)
  have h := splitLoop_never_completes chunk (splitOnCh '\n' chunk.content)
    ((maxChunkSize * (splitOnCh '\n' chunk.content).length / chunk.content.length : Nat) : Int)
    ((overlap * (splitOnCh '\n' chunk.content).length / chunk.content.length : Nat) : Int)
    preserveSignatures language (by positivity) (by positivity)
    fuel 0 0 [] (by exact_mod_cast hlen)
  cases hr : splitLoop chunk (splitOnCh '\n' chunk.content)
      ((maxChunkSize * (splitOnCh '\n' chunk.content).length / chunk.content.length : Nat) : Int)
      ((overlap * (splitOnCh '\n' chunk.content).length / chunk.content.length : Nat) : Int)
      preserveSignatures language fuel 0 0 [] with
  | completed chs => rw [hr] at h; exact absurd h (by simp [SplitResult.isCompleted])
  | fuelOut chs => rfl
  | jsError chs => rfl

/-- Every chunk `splitWithOverlap` ever emits still carries the placeholder
`totalParts = 0`: the backfill `chunks.forEach(c => c.totalParts =
chunks.length)` only runs after a normal loop exit, which never happens. -/
lemma splitWithOverlap_totalParts_zero (fuel : Nat) (chunk : RawChunk)
    (maxChunkSize overlap : Nat) (preserveSignatures : Bool) (language : Str) :
    ∀ c ∈ (splitWithOverlap fuel chunk maxChunkSize overlap preserveSignatures
      language).chunks, c.totalParts = some 0 := by
  intro c hc
  have hnc := splitWithOverlap_not_completed fuel chunk maxChunkSize overlap
    preserveSignatures language
  unfold splitWithOverlap at hc hnc
  have key := splitLoop_chunks_forall chunk (splitOnCh '\n' chunk.content)
    ((maxChunkSize * (splitOnCh '\n' chunk.content).length / chunk.content.length : Nat) : Int)
    ((overlap * (splitOnCh '\n' chunk.content).length / chunk.content.length : Nat) : Int)
    preserveSignatures language (fun c => c.totalParts = some 0)
    (fun _ _ _ => rfl) fuel 0 0 [] (by simp)
  cases hr : splitLoop chunk (splitOnCh '\n' chunk.content)
      ((maxChunkSize * (splitOnCh '\n' chunk.content).length / chunk.content.length : Nat) : Int)
      ((overlap * (splitOnCh '\n' chunk.content).length / chunk.content.length : Nat) : Int)
      preserveSignatures language fuel 0 0 [] with
  | completed chs => rw [hr] at hnc; exact absurd hnc (by simp [SplitResult.isCompleted])
  | fuelOut chs => rw [hr] at hc; exact key c (by rw [hr]; exact hc)
  | jsError chs => rw [hr] at hc; exact key c (by rw [hr]; exact hc)

/-! ### Claim theorems about the oversize splitter -/

/-- C1.  The claim asserts that the oversize splitter always terminates with
monotonic forward progress on `currentLine`.  The code violates this: the
split loop of `splitWithOverlap` has NO normal exit at all, for any chunk and
any options — every exit condition needs a split point `≥ lines.length`,
which `findOptimalSplitPoint` can never produce.  Formally: no amount of
fuel makes the loop complete. -/
theorem splitWithOverlap_never_completes :
    ∀ (fuel : Nat) (chunk : RawChunk) (maxChunkSize overlap : Nat)
      (preserveSignatures : Bool) (language : Str),
      (splitWithOverlap fuel chunk maxChunkSize overlap preserveSignatures
        language).isCompleted = false :=
  fun fuel chunk maxChunkSize overlap preserveSignatures language =>
    splitWithOverlap_not_completed fuel chunk maxChunkSize overlap preserveSignatures language

/-- A concrete oversize chunk: a 24-line function body (each line is `ab`),
71 characters in total, split with `maxChunkSize = 36`, `overlap = 3`.
Here `linesPerChunk = floor(36·24/71) = 12` and `overlapLines =
floor(3·24/71) = 1`, both exactly as the JavaScript float computation. -/
def exSplitContent : Str := joinNl (List.replicate 24 ['a', 'b'])

/-- The parsed chunk wrapping `exSplitContent`, as the structural parser
would hand it to the splitter (whole-source offsets, so `startChar = 0`). -/
def exSplitChunk : RawChunk :=
  { type := ("function".toList), name := ("bigFn".toList), startLine := 1, endLine := 24,
    startChar := 0, endChar := 71, content := exSplitContent,
    signature := none, docstring := some ("doc".toList) }

/-- C2.  The claim asserts `content == source[startOffset:endOffset]` for
every chunk, including splitter sub-chunks.  The code violates this for every
sub-chunk that does not start at line 0: `startChar` is computed as
`chunk.startChar + lines.slice(0, currentLine).join('\n').length`, which is
one character short of the true offset of line `currentLine` (the newline
separating line `currentLine - 1` from line `currentLine` is not counted).
Concretely, the second sub-chunk emitted for `exSplitChunk` has content
`"ab\nab"` but `source[startChar:endChar] = "\nab\nab"`. -/
theorem splitWithOverlap_content_offset_mismatch :
    (((splitWithOverlap 2 exSplitChunk 36 3 false ("javascript".toList)).chunks[1]?).map
        (fun c => (c.content, substringJs exSplitContent c.startChar c.endChar)) =
      some (("ab\nab".toList), ("\nab\nab".toList))) ∧
    (((splitWithOverlap 2 exSplitChunk 36 3 false ("javascript".toList)).chunks[1]?).map
        (fun c => decide (c.content = substringJs exSplitContent c.startChar c.endChar)) =
      some false) :=
  ⟨by decide, by decide⟩

/-- C3.  The claim asserts that splitting an oversize chunk yields at least 2
sub-chunks with `totalParts` backfilled to the sibling count on each.  The
code violates this: at the concrete oversize input `exSplitChunk` (71 chars,
`maxChunkSize = 36`) the splitter never returns at all — no fuel makes the
loop complete — and every sub-chunk it ever pushes still carries the
placeholder `totalParts = 0`, because the backfill only runs after the
(unreachable) loop exit. -/
theorem splitWithOverlap_never_yields_siblings :
    ∀ fuel : Nat,
      (splitWithOverlap fuel exSplitChunk 36 3 false ("javascript".toList)).isCompleted
          = false ∧
      ((splitWithOverlap fuel exSplitChunk 36 3 false ("javascript".toList)).chunks.all
          fun c => decide (c.totalParts = some 0)) = true := by
  intro fuel
  refine ⟨splitWithOverlap_not_completed fuel exSplitChunk 36 3 false ("javascript".toList), ?_⟩
  rw [List.all_eq_true]
  intro c hc
  exact decide_eq_true
    (splitWithOverlap_totalParts_zero fuel exSplitChunk 36 3 false ("javascript".toList) c hc)

/-- The claim-C8 property of a single chunk, in `Bool` form. -/
lemma c8_bool_of_prop {chunk c : RawChunk} (h1 : c.isPartial = true)
    (h2 : c.partNumber = some 0 → c.docstring = chunk.docstring)
    (h3 : c.partNumber ≠ some 0 → c.docstring = none) :
    (c.isPartial &&
      (if c.partNumber = some 0 then decide (c.docstring = chunk.docstring)
       else decide (c.docstring = none))) = true := by
  rw [h1]
  split_ifs with h
  · simp [h2 h]
  · simp [h3 h]

/-- C8.  Confirmed, over every sub-chunk the splitter ever emits (the split
as a whole never completes, see C1): each emitted sub-chunk has
`isPartial = true`, part 0 carries the parent's `docstring` unchanged, and
every part with a different part number carries `docstring = null`. -/
theorem splitWithOverlap_docstring_only_part0 :
    ∀ (fuel : Nat) (chunk : RawChunk) (maxChunkSize overlap : Nat)
      (preserveSignatures : Bool) (language : Str),
      ((splitWithOverlap fuel chunk maxChunkSize overlap preserveSignatures
          language).chunks.all
        fun c => c.isPartial &&
          (if c.partNumber = some 0 then decide (c.docstring = chunk.docstring)
           else decide (c.docstring = none))) = true := by
  intro fuel chunk maxChunkSize overlap preserveSignatures language
  rw [List.all_eq_true]
  intro c hc
  have key := splitLoop_chunks_forall chunk (splitOnCh '\n' chunk.content)
    ((maxChunkSize * (splitOnCh '\n' chunk.content).length / chunk.content.length : Nat) : Int)
    ((overlap * (splitOnCh '\n' chunk.content).length / chunk.content.length : Nat) : Int)
    preserveSignatures language
    (fun c => c.isPartial = true ∧ (c.partNumber = some 0 → c.docstring = chunk.docstring) ∧
      (c.partNumber ≠ some 0 → c.docstring = none))
    (by
      intro cur sp part
      refine ⟨rfl, ?_, ?_⟩
      · intro h
        have hp : part = 0 := by simpa [splitChunkPiece] using h
        simp [splitChunkPiece, hp]
      · intro h
        have hp : ¬ part = 0 := by simpa [splitChunkPiece] using h
        simp [splitChunkPiece, hp])
    fuel 0 0 [] (by simp)
  unfold splitWithOverlap at hc
  cases hr : splitLoop chunk (splitOnCh '\n' chunk.content)
      ((maxChunkSize * (splitOnCh '\n' chunk.content).length / chunk.content.length : Nat) : Int)
      ((overlap * (splitOnCh '\n' chunk.content).length / chunk.content.length : Nat) : Int)
      preserveSignatures language fuel 0 0 [] with
  | completed chs =>
    rw [hr] at hc
    simp only [SplitResult.chunks] at hc
    obtain ⟨c₀, hc₀, rfl⟩ := List.mem_map.mp hc
    obtain ⟨p1, p2, p3⟩ := key c₀ (by rw [hr]; exact hc₀)
    exact c8_bool_of_prop p1 p2 p3
  | fuelOut chs =>
    rw [hr] at hc
    obtain ⟨p1, p2, p3⟩ := key c (by rw [hr]; exact hc)
    exact c8_bool_of_prop p1 p2 p3
  | jsError chs =>
    rw [hr] at hc
    obtain ⟨p1, p2, p3⟩ := key c (by rw [hr]; exact hc)
    exact c8_bool_of_prop p1 p2 p3

/-! ### The fallback windower (`simpleChunk`, smart-chunker.js lines 204-251) -/

/-- The chunk object pushed by one iteration of the `simpleChunk` loop
(smart-chunker.js lines 227-238), for window start `start` and part number
`partNumber`.  The window end is `min(start + maxChunkSize, content.length)`. -/
def simpleChunkPiece (content : Str) (maxChunkSize : Nat) (start partNumber : Int) :
    RawChunk :=
  { type := ("text".toList),
    name := ("chunk_".toList) ++ intToStrJs partNumber,
    content := substringJs content start (min (start + (maxChunkSize : Int)) (content.length : Int)),
    startLine := ((splitOnCh '\n' (substringJs content 0 start)).length : Int) + 1,
    endLine := ((splitOnCh '\n' (substringJs content 0
      (min (start + (maxChunkSize : Int)) (content.length : Int)))).length : Int),
    startChar := start,
    endChar := min (start + (maxChunkSize : Int)) (content.length : Int),
    isPartial := decide ((maxChunkSize : Nat) < content.length),
    partNumber := some partNumber,
    totalParts := some 0 }

/-- The `while (start < content.length)` loop of `simpleChunk`
(smart-chunker.js lines 223-245), with fuel (`none` = fuel exhausted).
`start = end - overlap` after each push; the loop breaks after a push once
`start >= content.length - overlap`. -/
def simpleChunkLoop (content : Str) (maxChunkSize overlap : Nat) :
    Nat → Int → Int → Option (List RawChunk)
  | 0, _, _ => none
  | fuel + 1, start, partNumber =>
    if start < (content.length : Int) then
      if min (start + (maxChunkSize : Int)) (content.length : Int) - (overlap : Int) ≥
          (content.length : Int) - (overlap : Int) then
        some [simpleChunkPiece content maxChunkSize start partNumber]
      else
        (simpleChunkLoop content maxChunkSize overlap fuel
          (min (start + (maxChunkSize : Int)) (content.length : Int) - (overlap : Int))
          (partNumber + 1)).map (simpleChunkPiece content maxChunkSize start partNumber :: ·)
    else some []

/-- smart-chunker.js `simpleChunk(content, options)` (lines 204-251): one
whole-content chunk when the content fits, otherwise the sliding-window loop
followed by the `totalParts` backfill.  The fuel `content.length + 1` is an
upper bound on the iteration count whenever the loop makes progress (it
returns `none` only for degenerate options with `overlap ≥ maxChunkSize`,
where the source loop itself does not terminate). -/
def simpleChunk (content : Str) (maxChunkSize overlap : Nat) : Option (List RawChunk) :=
  if content.length ≤ maxChunkSize then
    some [{ type := ("text".toList), name := ("content".toList), content := content,
            startLine := 1, endLine := ((splitOnCh '\n' content).length : Int),
            startChar := 0, endChar := (content.length : Int) }]
  else
    match simpleChunkLoop content maxChunkSize overlap (content.length + 1) 0 0 with
    | none => none
    | some chunks => some (chunks.map fun c => { c with totalParts := some chunks.length })

/-- Master invariant of the `simpleChunk` loop, under the options the
windower is designed for (`overlap < maxChunkSize`): from any window start
`0 ≤ s < len` and with fuel exceeding the remaining distance, the loop
terminates and its chunk list starts at `s`, steps each window back exactly
`overlap` characters from the previous window's end, ends at `len`, keeps
every window inside `[0, len]` with a non-empty span, and covers every
position of `[s, len)`. -/
lemma simpleChunkLoop_spec (content : Str) (maxChunkSize overlap : Nat)
    (hmax : 1 ≤ maxChunkSize) (hov : overlap < maxChunkSize) :
    ∀ (fuel : Nat) (s part : Int), 0 ≤ s → s < (content.length : Int) →
      ((content.length : Int) - s).toNat < fuel →
      ∃ l, simpleChunkLoop content maxChunkSize overlap fuel s part = some l ∧
        l ≠ [] ∧
        (∀ c, l[0]? = some c → c.startChar = s) ∧
        (∀ (i : Nat) a b, l[i]? = some a → l[i + 1]? = some b →
          b.startChar = a.endChar - (overlap : Int)) ∧
        (∀ c, l[l.length - 1]? = some c → c.endChar = (content.length : Int)) ∧
        (∀ c ∈ l, 0 ≤ c.startChar ∧ c.startChar < c.endChar ∧
          c.endChar ≤ (content.length : Int)) ∧
        (∀ p : Int, s ≤ p → p < (content.length : Int) →
          ∃ c ∈ l, c.startChar ≤ p ∧ p < c.endChar) := by
  intro fuel
  induction fuel with
  | zero => intro s part hs0 hslt hfuel; omega
  | succ m ih =>
    intro s part hs0 hslt hfuel
    simp only [simpleChunkLoop]
    rw [if_pos hslt]
    by_cases hbr : min (s + (maxChunkSize : Int)) (content.length : Int) - (overlap : Int) ≥
        (content.length : Int) - (overlap : Int)
    · rw [if_pos hbr]
      have he : min (s + (maxChunkSize : Int)) (content.length : Int) =
          (content.length : Int) := by omega
      refine ⟨_, rfl, by simp, ?_, ?_, ?_, ?_, ?_⟩
      · intro c hc
        simp only [List.getElem?_cons_zero, Option.some.injEq] at hc
        rw [← hc]
        rfl
      · intro i a b _ hb
        simp only [List.getElem?_cons_succ, List.getElem?_nil] at hb
        exact absurd hb (by simp)
      · intro c hc
        simp only [List.length_singleton, Nat.sub_self, List.getElem?_cons_zero,
          Option.some.injEq] at hc
        rw [← hc]
        simp only [simpleChunkPiece, he]
      · intro c hc
        rw [List.mem_singleton.mp hc]
        refine ⟨hs0, ?_, ?_⟩ <;> simp only [simpleChunkPiece] <;> omega
      · intro p hp1 hp2
        refine ⟨simpleChunkPiece content maxChunkSize s part, List.mem_singleton_self _,
          hp1, ?_⟩
        simp only [simpleChunkPiece]
        omega
    · rw [if_neg hbr]
      have h1 : 0 ≤ min (s + (maxChunkSize : Int)) (content.length : Int) -
          (overlap : Int) := by omega
      have h2 : min (s + (maxChunkSize : Int)) (content.length : Int) - (overlap : Int) <
          (content.length : Int) := by omega
      have h3 : ((content.length : Int) -
          (min (s + (maxChunkSize : Int)) (content.length : Int) - (overlap : Int))).toNat
          < m := by omega
      obtain ⟨l, hl, hne, hhead, hchain, hlast, hbounds, hcover⟩ :=
        ih (min (s + (maxChunkSize : Int)) (content.length : Int) - (overlap : Int))
          (part + 1) h1 h2 h3
      rw [hl]
      refine ⟨simpleChunkPiece content maxChunkSize s part :: l, rfl, by simp, ?_, ?_, ?_, ?_, ?_⟩
      · intro c hc
        simp only [List.getElem?_cons_zero, Option.some.injEq] at hc
        rw [← hc]
        rfl
      · intro i a b ha hb
        cases i with
        | zero =>
          simp only [List.getElem?_cons_zero, Option.some.injEq] at ha
          simp only [List.getElem?_cons_succ] at hb
          have hbs := hhead b hb
          rw [← ha, hbs]
          rfl
        | succ j =>
          simp only [List.getElem?_cons_succ] at ha hb
          exact hchain j a b ha hb
      · intro c hc
        obtain ⟨k, hk⟩ : ∃ k, l.length = k + 1 :=
          ⟨l.length - 1, by have := List.length_pos.mpr hne; omega⟩
        simp only [List.length_cons, hk, Nat.add_sub_cancel, List.getElem?_cons_succ] at hc
        exact hlast c (by rw [hk]; simpa using hc)
      · intro c hc
        rcases List.mem_cons.mp hc with h | h
        · rw [h]
          refine ⟨hs0, ?_, ?_⟩ <;> simp only [simpleChunkPiece] <;> omega
        · exact hbounds c h
      · intro p hp1 hp2
        by_cases hpe : p < min (s + (maxChunkSize : Int)) (content.length : Int)
        · exact ⟨simpleChunkPiece content maxChunkSize s part, List.mem_cons_self _ _,
            by simpa [simpleChunkPiece] using And.intro hp1 hpe⟩
        · obtain ⟨c, hcmem, hcl, hcr⟩ := hcover p (by omega) hp2
          exact ⟨c, List.mem_cons_of_mem _ hcmem, hcl, hcr⟩

/-- C10.  Confirmed: for content longer than `maxChunkSize` and
`0 < overlap < maxChunkSize`, the fallback windower covers the whole input
with the stated overlap — the first chunk starts at offset 0, every
subsequent chunk starts exactly `overlap` characters before the previous
chunk's end offset, the last chunk ends at `content.length`, and every
character position lies inside at least one chunk. -/
theorem simpleChunk_window_coverage :
    ∀ (content : Str) (maxChunkSize overlap : Nat),
      maxChunkSize < content.length → 0 < overlap → overlap < maxChunkSize →
      (simpleChunk content maxChunkSize overlap).isSome = true ∧
      ∀ l, simpleChunk content maxChunkSize overlap = some l →
        l ≠ [] ∧
        (∀ c, l[0]? = some c → c.startChar = 0) ∧
        (∀ (i : Nat) a b, l[i]? = some a → l[i + 1]? = some b →
          b.startChar = a.endChar - (overlap : Int)) ∧
        (∀ c, l[l.length - 1]? = some c → c.endChar = (content.length : Int)) ∧
        (∀ p : Int, 0 ≤ p → p < (content.length : Int) →
          ∃ c ∈ l, c.startChar ≤ p ∧ p < c.endChar) := by
  intro content maxChunkSize overlap hlen hov0 hov
  have hmax : 1 ≤ maxChunkSize := by omega
  have hlen0 : (0 : Int) < (content.length : Int) := by exact_mod_cast by omega
  obtain ⟨l, hl, hne, hhead, hchain, hlast, hbounds, hcover⟩ :=
    simpleChunkLoop_spec content maxChunkSize overlap hmax hov (content.length + 1) 0 0
      le_rfl hlen0 (by omega)
  have hsc : simpleChunk content maxChunkSize overlap =
      some (l.map fun c => { c with totalParts := some l.length }) := by
    simp only [simpleChunk]
    rw [if_neg (by omega)]
    rw [hl]
  refine ⟨by rw [hsc]; rfl, ?_⟩
  intro l' hl'
  rw [hsc] at hl'
  obtain rfl : l.map (fun c => { c with totalParts := some l.length }) = l' := by
    simpa using hl'
  refine ⟨by simpa using hne, ?_, ?_, ?_, ?_⟩
  · intro c hc
    rw [List.getElem?_map] at hc
    cases h0 : l[0]? with
    | none => rw [h0] at hc; exact absurd hc (by simp)
    | some c₀ =>
      rw [h0] at hc
      simp only [Option.map_some', Option.some.injEq] at hc
      rw [← hc]
      exact hhead c₀ h0
  · intro i a b ha hb
    rw [List.getElem?_map] at ha hb
    cases h0 : l[i]? with
    | none => rw [h0] at ha; exact absurd ha (by simp)
    | some a₀ =>
      cases h1 : l[i + 1]? with
      | none => rw [h1] at hb; exact absurd hb (by simp)
      | some b₀ =>
        rw [h0] at ha
        rw [h1] at hb
        simp only [Option.map_some', Option.some.injEq] at ha hb
        rw [← ha, ← hb]
        exact hchain i a₀ b₀ h0 h1
  · intro c hc
    rw [List.length_map, List.getElem?_map] at hc
    cases h0 : l[l.length - 1]? with
    | none => rw [h0] at hc; exact absurd hc (by simp)
    | some c₀ =>
      rw [h0] at hc
      simp only [Option.map_some', Option.some.injEq] at hc
      rw [← hc]
      exact hlast c₀ h0
  · intro p hp1 hp2
    obtain ⟨c, hcmem, h1, h2⟩ := hcover p hp1 hp2
    exact ⟨{ c with totalParts := some l.length }, List.mem_map_of_mem _ hcmem, h1, h2⟩

/-- Witness for C10 at the concrete input `"abcdefghij"`, `maxChunkSize = 4`,
`overlap = 2` (windows `[0,4) [2,6) [4,8) [6,10)`). -/
theorem simpleChunk_window_coverage_witness :
    (simpleChunk ("abcdefghij".toList) 4 2).isSome = true ∧
    ∀ l, simpleChunk ("abcdefghij".toList) 4 2 = some l →
      l ≠ [] ∧
      (∀ c, l[0]? = some c → c.startChar = 0) ∧
      (∀ (i : Nat) a b, l[i]? = some a → l[i + 1]? = some b →
        b.startChar = a.endChar - ((2 : Nat) : Int)) ∧
      (∀ c, l[l.length - 1]? = some c →
        c.endChar = ((("abcdefghij".toList) : Str).length : Int)) ∧
      (∀ p : Int, 0 ≤ p → p < ((("abcdefghij".toList) : Str).length : Int) →
        ∃ c ∈ l, c.startChar ≤ p ∧ p < c.endChar) :=
  simpleChunk_window_coverage ("abcdefghij".toList) 4 2 (by decide) (by decide) (by decide)

/-! ### The structural parser (code-parser.js) -/

/-- code-parser.js `detectLanguage(filePath)` (lines 14-29): Node's
`path.extname` (suffix of the basename from its last dot; empty when there is
no dot or the basename starts with its only dot), lower-cased, looked up in
the static extension table. -/
def extnameJs (filePath : Str) : Str :=
  match (splitOnCh '/' filePath).getLastD [] with
  | base =>
    match (base.reverse.findIdx? fun c => c == '.') with
    | none => []
    | some j =>
      if base.length - 1 - j = 0 then [] else base.drop (base.length - 1 - j)

/-- The `languageMap` object literal of `detectLanguage`. -/
def languageMap : List (Str × Str) :=
  [((".js".toList), ("javascript".toList)),
   ((".jsx".toList), ("javascript".toList)),
   ((".ts".toList), ("typescript".toList)),
   ((".tsx".toList), ("typescript".toList)),
   ((".mjs".toList), ("javascript".toList)),
   ((".cjs".toList), ("javascript".toList)),
   ((".py".toList), ("python".toList)),
   ((".pyw".toList), ("python".toList))]

/-- code-parser.js `detectLanguage` (lines 14-29). -/
def detectLanguage (filePath : Str) : Str :=
  (languageMap.lookup (toLowerStr (extnameJs filePath))).getD ("unknown".toList)

/-- The shape of a variable declarator's initializer, as far as
`extractNodeInfo` inspects it. -/
inductive InitKind where
  | arrowFnExpr (isAsync : Bool)
  | functionExpr (isAsync : Bool)
  | otherExpr
deriving Repr, DecidableEq

/-- A variable declarator node (`declarator.id.name`, `.start`, `.end`,
`.init`). -/
structure Declarator where
  idName : Str
  dstart : Int
  dend : Int
  init : Option InitKind
deriving Repr, DecidableEq

/-- An Acorn `loc` record (start/end lines, 1-based). -/
structure Loc where
  startLine : Int
  endLine : Int
deriving Repr, DecidableEq

/-- A top-level Acorn AST node, carrying exactly the fields
`extractNodeInfo` reads.  The AST itself is produced by the external `acorn`
dependency, so `parseJavaScript` below is parameterised by the parse
outcome. -/
inductive AcornNode where
  | fnDecl (idName : Option Str) (loc : Loc) (nstart nend : Int)
      (isAsync isGen : Bool) (bodyStart : Int)
  | classDecl (idName : Option Str) (loc : Loc) (nstart nend : Int)
  | varDecl (loc : Loc) (nstart nend : Int) (decls : List Declarator)
  | exportNamed (decl : Option AcornNode)
  | exportDefault (decl : Option AcornNode)
  | otherStmt

/-- code-parser.js `extractJSDoc(node, code, lines)` (lines 218-239): walk up
to 9 lines backwards from the line above the declaration (indices
`startLine - 2` down to `startLine - 10`, stopping at 0); a line starting
with the doc marker collects `lines[i .. startLine-2]`; a non-comment,
non-blank line stops the search. -/
def extractJSDocGo (lines : List Str) (startLine : Int) : Nat → Int → Option Str
  | 0, _ => none
  | k + 1, i =>
    if i ≥ 0 ∧ i ≥ startLine - 10 then
      if ['/', '*', '*'].isPrefixOf (trimStr ((getLine lines i).getD [])) then
        some (trimStr (joinNl (sliceJs lines i (startLine - 1))))
      else if ¬ (trimStr ((getLine lines i).getD [])).isEmpty ∧
          ¬ (['*'].isPrefixOf (trimStr ((getLine lines i).getD []))) ∧
          ¬ (['/', '/'].isPrefixOf (trimStr ((getLine lines i).getD []))) then
        none
      else
        extractJSDocGo lines startLine k (i - 1)
    else none

/-- Entry point of `extractJSDoc`: the loop runs at most 9 times. -/
def extractJSDoc (startLine : Int) (lines : List Str) : Option Str :=
  extractJSDocGo lines startLine 9 (startLine - 2)

/-- code-parser.js `extractSignature(node, code)` (lines 183-194): the
source text from the declaration start to the body start, trimmed. -/
def extractSignature (code : Str) (nstart bodyStart : Int) : Str :=
  trimStr (substringJs code nstart bodyStart)

/-- code-parser.js `extractArrowSignature(declarator, code)` (lines
202-209): the declarator text up to the first opening brace, trimmed, with a
body placeholder appended. -/
def extractArrowSignature (code : Str) (d : Declarator) : Str :=
  trimStr ((splitOnCh lbrace (substringJs code d.dstart d.dend)).headD []) ++
    [' ', lbrace, '.', '.', '.', rbrace]

/-- Whether a declarator initializer is an arrow function or function
expression (the `declarator.init.type` test of `extractNodeInfo`). -/
def InitKind.isFn : InitKind → Bool
  | .arrowFnExpr _ => true
  | .functionExpr _ => true
  | .otherExpr => false

/-- The `isAsync` flag of a function-valued initializer. -/
def InitKind.asyncFlag : InitKind → Bool
  | .arrowFnExpr a => a
  | .functionExpr a => a
  | .otherExpr => false

/-- code-parser.js `extractNodeInfo(node, code, lines)` (lines 104-175). -/
def extractNodeInfo (code : Str) (lines : List Str) : AcornNode → Option RawChunk
  | .fnDecl idName loc nstart nend isAsync isGen bodyStart =>
    some { type := ("function".toList), name := idName.getD ("anonymous".toList),
           startLine := loc.startLine, endLine := loc.endLine,
           startChar := nstart, endChar := nend,
           content := substringJs code nstart nend,
           signature := some (extractSignature code nstart bodyStart),
           docstring := extractJSDoc loc.startLine lines,
           isAsync := isAsync, isGenerator := isGen }
  | .classDecl idName loc nstart nend =>
    some { type := ("class".toList), name := idName.getD ("anonymous".toList),
           startLine := loc.startLine, endLine := loc.endLine,
           startChar := nstart, endChar := nend,
           content := substringJs code nstart nend,
           signature := some (("class ".toList) ++ idName.getD ("anonymous".toList)),
           docstring := extractJSDoc loc.startLine lines }
  | .varDecl loc nstart nend decls =>
    match decls.find? (fun d => match d.init with
      | some k => InitKind.isFn k
      | none => false) with
    | none => none
    | some d =>
      some { type := ("function".toList), name := d.idName,
             startLine := loc.startLine, endLine := loc.endLine,
             startChar := nstart, endChar := nend,
             content := substringJs code nstart nend,
             signature := some (extractArrowSignature code d),
             docstring := extractJSDoc loc.startLine lines,
             isAsync := match d.init with
               | some k => InitKind.asyncFlag k
               | none => false }
  | .exportNamed decl =>
    match decl with
    | none => none
    | some n => (extractNodeInfo code lines n).map fun c => { c with isExported := true }
  | .exportDefault decl =>
    match decl with
    | none => none
    | some n => (extractNodeInfo code lines n).map fun c => { c with isExported := true }
  | .otherStmt => none

/-- code-parser.js `parseJavaScript(code, filePath)` (lines 37-95),
parameterised by the outcome of the external `acorn` parse (`ok` with the
top-level AST node list, or `error` with the diagnostic message).  On a
parse error the catch block logs a warning and falls back to a single
whole-file chunk named `unparseable` — the error is never re-thrown, which
the total return type records. -/
def parseJavaScript (parseResult : Except Str (List AcornNode)) (code : Str) :
    List RawChunk :=
  match parseResult with
  | .ok astBody =>
    if (astBody.filterMap (extractNodeInfo code (splitOnCh '\n' code))).isEmpty then
      [{ type := ("other".toList), name := ("module".toList), startLine := 1,
         endLine := ((splitOnCh '\n' code).length : Int), startChar := 0,
         endChar := (code.length : Int), content := code,
         signature := none, docstring := none }]
    else astBody.filterMap (extractNodeInfo code (splitOnCh '\n' code))
  | .error _msg =>
    [{ type := ("other".toList), name := ("unparseable".toList), startLine := 1,
       endLine := ((splitOnCh '\n' code).length : Int), startChar := 0,
       endChar := (code.length : Int), content := code,
       signature := none, docstring := none }]

/-! ### The metadata enricher (smart-chunker.js lines 261-406) -/

/-- smart-chunker.js `calculateLOC(content)` (lines 327-344): count lines
that are non-blank after trimming and start with none of the comment
markers. -/
def calculateLOC (content : Str) : Nat :=
  ((splitOnCh '\n' content).filter fun line =>
    !(trimStr line).isEmpty &&
    !(['/', '/'].isPrefixOf (trimStr line)) &&
    !(['#'].isPrefixOf (trimStr line)) &&
    !(['/', '*'].isPrefixOf (trimStr line)) &&
    !(['*'].isPrefixOf (trimStr line))).length

/-- A JavaScript `\w` word character (ASCII letter, digit or underscore). -/
def isWordChar (c : Char) : Bool := c.isAlphanum || c == '_'

/-- Whether a match may start here: the previous character (if any) is not a
word character (the `\b` boundary on the left). -/
def leftBoundaryOk (prev : Option Char) : Bool :=
  match prev with
  | none => true
  | some c => !(isWordChar c)

/-- The `\b` boundary on the right: the rest of the string is empty or
starts with a non-word character. -/
def rightBoundaryOk : Str → Bool
  | [] => true
  | c :: _ => !(isWordChar c)

/-- Count of the matches of `/\bw\b/g` in a string: occurrences of the word
`w` flanked by word boundaries (such matches cannot overlap, so the count
coincides with the global-regex match count used by the source). -/
def countWordFrom (w : Str) : Option Char → Str → Nat
  | _, [] => 0
  | prev, c :: rest =>
    (if leftBoundaryOk prev && w.isPrefixOf (c :: rest) &&
        rightBoundaryOk ((c :: rest).drop w.length) then 1 else 0) +
      countWordFrom w (some c) rest

/-- Entry point for the word-pattern counters of `estimateComplexity`. -/
def countWord (w : Str) (s : Str) : Nat := countWordFrom w none s

/-- One position matching `/\belse\s+if\b/`: `else`, at least one whitespace
character, then `if`, with word boundaries on both sides. -/
def elseIfAt (prev : Option Char) (s : Str) : Bool :=
  leftBoundaryOk prev && ("else".toList).isPrefixOf s &&
    (let r := s.drop 4
     let r' := r.dropWhile fun c => isWsJs c
     decide (r'.length < r.length) && ("if".toList).isPrefixOf r' &&
       rightBoundaryOk (r'.drop 2))

/-- Count of the matches of `/\belse\s+if\b/g`. -/
def countElseIfFrom : Option Char → Str → Nat
  | _, [] => 0
  | prev, c :: rest =>
    (if elseIfAt prev (c :: rest) then 1 else 0) + countElseIfFrom (some c) rest

/-- Count of the matches of `/&&/g` (non-overlapping, left to right). -/
def countAmpAmp : Str → Nat
  | '&' :: '&' :: rest => 1 + countAmpAmp rest
  | _ :: rest => countAmpAmp rest
  | [] => 0

/-- Count of the matches of `/\|\|/g` (non-overlapping, left to right). -/
def countPipePipe : Str → Nat
  | '|' :: '|' :: rest => 1 + countPipePipe rest
  | _ :: rest => countPipePipe rest
  | [] => 0

/-- smart-chunker.js `estimateComplexity(content)` (lines 351-380): 1 plus
the match count of each pattern in the fixed list, capped at 100. -/
def estimateComplexity (content : Str) : Nat :=
  min
    (1 + countWord ("if".toList) content + countElseIfFrom none content +
      countWord ("else".toList) content + countWord ("for".toList) content +
      countWord ("while".toList) content + countWord ("case".toList) content +
      countWord ("catch".toList) content + countWord ("try".toList) content +
      countWord ("and".toList) content + countWord ("or".toList) content +
      countAmpAmp content + countPipePipe content + content.count '?')
    100

/-- smart-chunker.js `scoreChunk(chunk)` (lines 387-406), computed in
half-units so that the `+0.5` bonuses and `Math.round` (round half away from
zero, here always on non-negative values, i.e. half up) are exact:
`score2` is twice the JavaScript `score`, and `Math.round(score2 / 2) =
(score2 + 1) / 2` in natural division. -/
def scoreChunk (chunk : RawChunk) : Nat :=
  min
    (((10 +
        (if chunk.isExported then 4 else 0) +
        (if ¬ chunk.name.isEmpty ∧ ¬ (['_'].isPrefixOf chunk.name) then 2 else 0) +
        (if chunk.type = ("function".toList) then 2 else 0) +
        (if chunk.type = ("class".toList) then 2 else 0) +
        (if ¬ (chunk.docstring.getD []).isEmpty then 2 else 0) +
        (if chunk.isAsync then 1 else 0) +
        (if chunk.isGenerator then 1 else 0)) + 1) / 2)
    10

/-- The flat metadata record of an enriched chunk (smart-chunker.js lines
277-319).  The source field `is_partial` is named `isPartial` here. -/
structure ChunkMetadata where
  chunk_type : Str
  name : Str
  language : Str
  start_line : Int
  end_line : Int
  start_char : Int
  end_char : Int
  line_count : Int
  char_count : Nat
  isPartial : Bool
  part_number : Int
  total_parts : Int
  parent_chunk : Option Str
  signature : Option Str
  has_docstring : Bool
  docstring : Option Str
  decorators : Option Str
  complexity_estimate : Nat
  loc : Nat
  chunk_score : Nat
  is_public : Bool
  is_exported : Bool
  is_async : Bool
  is_generator : Bool
  preview : Str
deriving Repr, DecidableEq

/-- The `{content, metadata}` record returned by `enrichChunkMetadata`. -/
structure EnrichedChunk where
  content : Str
  metadata : ChunkMetadata
deriving Repr, DecidableEq

/-- smart-chunker.js `enrichChunkMetadata(chunk, fullContent, filePath,
options)` (lines 261-320).  JavaScript `x || null` on a string field maps
the empty string to `null`, hence the `isEmpty` guards. -/
def enrichChunkMetadata (chunk : RawChunk) (fullContent filePath : Str)
    (calculateComplexity : Bool) : EnrichedChunk :=
  { content := chunk.content,
    metadata := {
      chunk_type := chunk.type,
      name := chunk.name,
      language := detectLanguage filePath,
      start_line := chunk.startLine,
      end_line := chunk.endLine,
      start_char := chunk.startChar,
      end_char := chunk.endChar,
      line_count := chunk.endLine - chunk.startLine + 1,
      char_count := chunk.content.length,
      isPartial := chunk.isPartial,
      part_number := chunk.partNumber.getD 0,
      total_parts := chunk.totalParts.getD 1,
      parent_chunk := if (chunk.parentChunk.getD []).isEmpty then none else chunk.parentChunk,
      signature := if (chunk.signature.getD []).isEmpty then none else chunk.signature,
      has_docstring := !(chunk.docstring.getD []).isEmpty,
      docstring := if (chunk.docstring.getD []).isEmpty then none else chunk.docstring,
      decorators := chunk.decorators.map fun ds => List.intercalate (", ".toList) ds,
      complexity_estimate := if calculateComplexity then estimateComplexity chunk.content else 0,
      loc := calculateLOC chunk.content,
      chunk_score := scoreChunk chunk,
      is_public := !chunk.name.isEmpty && !(['_'].isPrefixOf chunk.name),
      is_exported := chunk.isExported,
      is_async := chunk.isAsync,
      is_generator := chunk.isGenerator,
      preview := trimStr ((substringJs chunk.content 0 200).map
        fun c => if c = '\n' then ' ' else c) } }

/-! ### The engine entry point (smart-chunker.js `intelligentChunk`) -/

/-- The recognized options of `intelligentChunk`, with the source
defaults. -/
structure ChunkOptions where
  maxChunkSize : Nat := 4000
  overlap : Nat := 200
  minChunkSize : Nat := 500
  preserveSignatures : Bool := true
  calculateComplexity : Bool := true
deriving Repr, DecidableEq

/-- An element of the array `intelligentChunk` returns.  The source is
duck-typed: the unknown-language path returns the raw `simpleChunk` objects
unchanged, the parsed path returns `{content, metadata}` records; the sum
type records which shape each element has. -/
inductive ChunkOut where
  | plain (c : RawChunk)
  | enriched (e : EnrichedChunk)
deriving Repr, DecidableEq

/-- Whether an output element is a `{content, metadata}` record produced by
the enricher (rather than a raw chunk object). -/
def ChunkOut.isEnriched : ChunkOut → Bool
  | .plain _ => false
  | .enriched _ => true

/-- smart-chunker.js `intelligentChunk(content, filePath, options)`
(lines 15-63), parameterised by the parser stage (`extractChunksFn` stands
for code-parser.js `extractChunks`, whose JavaScript branch calls the
external `acorn` dependency) and by the split-loop fuel.  `none` models an
invocation that never returns because the oversize splitter diverges. -/
def intelligentChunk (extractChunksFn : Str → Str → List RawChunk) (fuel : Nat)
    (content filePath : Str) (options : ChunkOptions) : Option (List ChunkOut) :=
  if detectLanguage filePath = ("unknown".toList) then
    (simpleChunk content options.maxChunkSize options.overlap).map
      (List.map ChunkOut.plain)
  else
    ((extractChunksFn content filePath).mapM fun chunk =>
      if chunk.content.length ≤ options.maxChunkSize then
        some [ChunkOut.enriched
          (enrichChunkMetadata chunk content filePath options.calculateComplexity)]
      else
        match splitWithOverlap fuel chunk options.maxChunkSize options.overlap
            options.preserveSignatures (detectLanguage filePath) with
        | .completed splitChunks =>
          some (splitChunks.map fun sc => ChunkOut.enriched
            (enrichChunkMetadata sc content filePath options.calculateComplexity))
        | _ => none).map List.flatten

/-! ### Claim theorems about the parser, enricher and engine -/

/-- `estimateComplexity` starts at 1, only adds non-negative match counts,
and caps at 100. -/
lemma estimateComplexity_bounds (content : Str) :
    1 ≤ estimateComplexity content ∧ estimateComplexity content ≤ 100 := by
  simp only [estimateComplexity]
  omega

/-- `scoreChunk` starts at base 5, only adds non-negative bonuses, rounds
half up and caps at 10. -/
lemma scoreChunk_bounds (chunk : RawChunk) :
    5 ≤ scoreChunk chunk ∧ scoreChunk chunk ≤ 10 := by
  simp only [scoreChunk]
  split_ifs <;> omega

/-- C9.  Confirmed: the importance score starts from a base of 5 and only
ever adds bonuses before rounding and capping at 10, so it lies in `[5, 10]`
for every chunk, regardless of kind, name, export status or flags — a
tighter lower bound than the spec's stated floor of 0. -/
theorem scoreChunk_range :
    ∀ chunk : RawChunk, 5 ≤ scoreChunk chunk ∧ scoreChunk chunk ≤ 10 :=
  fun chunk => scoreChunk_bounds chunk

/-- A small parsed chunk, used as the enricher input in the C6
counterexample. -/
def exEnrichChunk : RawChunk :=
  { type := ("function".toList), name := ("foo".toList), startLine := 1, endLine := 1,
    startChar := 0, endChar := 5, content := ("x = 1".toList) }

/-- C6 counterexample.  The claim asserts `complexityEstimate ∈ [1, 100]`
under any combination of the recognized options, including
`calculateComplexity`; but with `calculateComplexity = false` the enricher
stores `0`, which is below the claimed lower bound. -/
theorem enrich_complexity_zero_when_disabled :
    (enrichChunkMetadata exEnrichChunk [] ("a.js".toList)
      false).metadata.complexity_estimate = 0 ∧
    (enrichChunkMetadata exEnrichChunk [] ("a.js".toList)
      false).metadata.complexity_estimate < 1 :=
  ⟨rfl, by decide⟩

/-- C6 amended.  With `calculateComplexity` enabled the complexity estimate
is in `[1, 100]`; with it disabled the field is exactly 0; and the
importance score is always in `[0, 10]` (indeed in `[5, 10]`). -/
theorem enrich_metadata_ranges :
    ∀ (chunk : RawChunk) (fullContent filePath : Str),
      1 ≤ (enrichChunkMetadata chunk fullContent filePath
          true).metadata.complexity_estimate ∧
      (enrichChunkMetadata chunk fullContent filePath
          true).metadata.complexity_estimate ≤ 100 ∧
      (enrichChunkMetadata chunk fullContent filePath
          false).metadata.complexity_estimate = 0 ∧
      5 ≤ (enrichChunkMetadata chunk fullContent filePath true).metadata.chunk_score ∧
      (enrichChunkMetadata chunk fullContent filePath true).metadata.chunk_score ≤ 10 := by
  intro chunk fullContent filePath
  have h1 := estimateComplexity_bounds chunk.content
  have h2 := scoreChunk_bounds chunk
  exact ⟨h1.1, h1.2, rfl, h2.1, h2.2⟩

/-- C5 counterexample.  The claim asserts the whole-file fallback chunk on a
parse error has kind `unparseable`; in the code the kind (the `type` field)
is `other` — `unparseable` is the chunk's `name`. -/
theorem parseJavaScript_error_kind_not_unparseable :
    ((parseJavaScript (Except.error ("Unexpected token".toList)) ("let x = ".toList)).map
      fun c => c.type) = [("other".toList)] ∧
    ((parseJavaScript (Except.error ("Unexpected token".toList)) ("let x = ".toList)).map
      fun c => decide (c.type = ("unparseable".toList))) = [false] :=
  ⟨rfl, by decide⟩

/-- C5 amended.  For every source and every parse error, the parser emits
exactly one chunk, of kind (`type`) `other` and name `unparseable`, spanning
the whole file (`startChar = 0`, `endChar = code.length`); the error is
consumed by the catch block and never propagated (the embedded function is
total and returns this chunk list normally). -/
theorem parseJavaScript_error_single_other_chunk :
    ∀ (code errMsg : Str),
      parseJavaScript (Except.error errMsg) code =
        [{ type := ("other".toList), name := ("unparseable".toList), startLine := 1,
           endLine := ((splitOnCh '\n' code).length : Int), startChar := 0,
           endChar := (code.length : Int), content := code,
           signature := none, docstring := none }] :=
  fun _code _errMsg => rfl

/-- The single chunk `simpleChunk` produces for the empty source. -/
def exEmptyChunk : RawChunk :=
  { type := ("text".toList), name := ("content".toList), content := [],
    startLine := 1, endLine := 1, startChar := 0, endChar := 0 }

/-- C7 counterexample.  The claim asserts the strict inequality
`startOffset < endOffset` for every input, including the empty source; but
the empty source yields one chunk with `startOffset = endOffset = 0`. -/
theorem simpleChunk_empty_source_zero_span :
    simpleChunk [] 4000 200 = some [exEmptyChunk] ∧
    decide (exEmptyChunk.startChar < exEmptyChunk.endChar) = false :=
  ⟨rfl, by decide⟩

/-- The whole-file `module` chunk `parseJavaScript` emits when the AST holds
no extractable declaration (the literal of code-parser.js lines 65-75). -/
def moduleChunkJs (code : Str) : RawChunk :=
  { type := ("other".toList), name := ("module".toList), startLine := 1,
    endLine := ((splitOnCh '\n' code).length : Int), startChar := 0,
    endChar := (code.length : Int), content := code,
    signature := none, docstring := none }

/-- C7 amended.  Every chunk of the fallback windower (under the options it
is designed for) and the whole-file chunk of the structural parser satisfy
`0 ≤ startOffset ≤ endOffset ≤ len(source)`, with the strict inequality
`startOffset < endOffset` whenever the source is nonempty; the empty source
still yields exactly one chunk, but with `startOffset = endOffset = 0`. -/
theorem chunk_offset_bounds :
    (∀ (content : Str) (maxChunkSize overlap : Nat), 1 ≤ maxChunkSize →
      overlap < maxChunkSize →
      ∀ l, simpleChunk content maxChunkSize overlap = some l →
        ∀ c ∈ l, 0 ≤ c.startChar ∧ c.startChar ≤ c.endChar ∧
          c.endChar ≤ (content.length : Int) ∧
          (0 < content.length → c.startChar < c.endChar)) ∧
    (∀ code : Str, ∀ c ∈ parseJavaScript (Except.ok []) code,
      0 ≤ c.startChar ∧ c.startChar ≤ c.endChar ∧ c.endChar ≤ (code.length : Int) ∧
        (0 < code.length → c.startChar < c.endChar)) := by
  constructor
  · intro content maxChunkSize overlap hmax hov l hl c hc
    by_cases hfit : content.length ≤ maxChunkSize
    · simp only [simpleChunk, if_pos hfit, Option.some.injEq] at hl
      rw [← hl, List.mem_singleton] at hc
      subst hc
      exact ⟨le_rfl, Int.natCast_nonneg _, le_rfl,
        fun h => show (0 : Int) < (content.length : Int) by exact_mod_cast h⟩
    · simp only [simpleChunk, if_neg hfit] at hl
      obtain ⟨l₀, hl₀, hne, hhead, hchain, hlast, hbounds, hcover⟩ :=
        simpleChunkLoop_spec content maxChunkSize overlap hmax hov
          (content.length + 1) 0 0 le_rfl
          (by exact_mod_cast (by omega : 0 < content.length)) (by omega)
      rw [hl₀] at hl
      have hl' : l₀.map (fun c => { c with totalParts := some l₀.length }) = l := by
        simpa using hl
      subst hl'
      obtain ⟨c₀, hc₀, rfl⟩ := List.mem_map.mp hc
      obtain ⟨b1, b2, b3⟩ := hbounds c₀ hc₀
      exact ⟨b1, le_of_lt b2, b3, fun _ => b2⟩
  · intro code c hc
    have hmod : parseJavaScript (Except.ok []) code = [moduleChunkJs code] := rfl
    rw [hmod, List.mem_singleton] at hc
    subst hc
    exact ⟨le_rfl, Int.natCast_nonneg _, le_rfl,
      fun h => show (0 : Int) < (code.length : Int) by exact_mod_cast h⟩

/-- Witness for C7 at the concrete inputs `"abcdefghij"` (windower,
`maxChunkSize = 4`, `overlap = 2`) and `"x = 1"` (parser whole-file
chunk). -/
theorem chunk_offset_bounds_witness :
    (∀ l, simpleChunk ("abcdefghij".toList) 4 2 = some l →
      ∀ c ∈ l, 0 ≤ c.startChar ∧ c.startChar ≤ c.endChar ∧
        c.endChar ≤ ((("abcdefghij".toList) : Str).length : Int) ∧
        (0 < (("abcdefghij".toList) : Str).length → c.startChar < c.endChar)) ∧
    (∀ c ∈ parseJavaScript (Except.ok []) ("x = 1".toList),
      0 ≤ c.startChar ∧ c.startChar ≤ c.endChar ∧
        c.endChar ≤ ((("x = 1".toList) : Str).length : Int) ∧
        (0 < (("x = 1".toList) : Str).length → c.startChar < c.endChar)) :=
  ⟨fun l hl => chunk_offset_bounds.1 ("abcdefghij".toList) 4 2 (by decide) (by decide) l hl,
   fun c hc => chunk_offset_bounds.2 ("x = 1".toList) c hc⟩

/-- The raw chunk the unknown-language path returns for the input
`"hello world"`. -/
def exUnknownChunk : RawChunk :=
  { type := ("text".toList), name := ("content".toList), content := ("hello world".toList),
    startLine := 1, endLine := 1, startChar := 0, endChar := 11 }

/-- C4.  The claim asserts that for an unrecognized extension the engine
returns EnrichedChunk records (with a metadata object and `language` set to
the unknown tag).  The code violates this — and its own doc comment, which
promises an array of chunks with enriched metadata: the unknown-language
path returns the raw `simpleChunk` objects directly, bypassing
`enrichChunkMetadata`, so the returned elements are plain chunks with no
metadata object at all (the windowing itself does follow the size options,
see the C10 theorem).  Proved for every parser stage and fuel, since the
unknown path consults neither. -/
theorem intelligentChunk_unknown_language_not_enriched :
    ∀ (extractChunksFn : Str → Str → List RawChunk) (fuel : Nat),
      intelligentChunk extractChunksFn fuel ("hello world".toList) ("notes.xyz".toList)
          {} = some [ChunkOut.plain exUnknownChunk] ∧
      (intelligentChunk extractChunksFn fuel ("hello world".toList) ("notes.xyz".toList)
          {}).map (List.map ChunkOut.isEnriched) = some [false] :=
  fun _extractChunksFn _fuel => ⟨rfl, rfl⟩
